import Mathlib

/-!
Verification of the StudyOS backend core (`src/server.js`): chunk-profile
resolution, the word-based text chunker, and the three request handlers
(`/ingest_content`, `/search_content`, `/log_completion_result`), shallowly
embedded as pure Lean functions.  External effects (the embedding provider
and the vector store) are modelled by result constructors that record the
exact payload the handler would send, so that "no external call happens on
this path" is visible in the structure of the result.
-/

/-- A chunking profile: window size and overlap, in words.
Mirrors the objects returned by `getChunkConfig` in `server.js`. -/
structure ChunkProfile where
  sizeWords : Nat
  overlapWords : Nat
deriving DecidableEq

/-- `getChunkConfig` from `server.js`: a total mapping from profile names to
profiles; the JS default parameter `profile = 'default'` is mirrored by the
Lean default argument. -/
def getChunkConfig (profile : String := "default") : ChunkProfile :=
  match profile with
  | "short_form" => { sizeWords := 400, overlapWords := 60 }
  | "long_book" => { sizeWords := 1400, overlapWords := 180 }
  | _ => { sizeWords := 900, overlapWords := 120 }

/-- Single-pass splitter over the character list: maximal runs of
non-whitespace characters, in order.  `acc` holds the (reversed) current run.
Embeds `text.split(/\s+/).filter(Boolean)` from `server.js`. -/
def wordsAux : List Char → List Char → List String
  | [], acc => if acc.isEmpty then [] else [String.mk acc.reverse]
  | c :: cs, acc =>
    if c.isWhitespace then
      if acc.isEmpty then wordsAux cs [] else String.mk acc.reverse :: wordsAux cs []
    else wordsAux cs (c :: acc)

/-- The word sequence of a text: `text.split(/\s+/).filter(Boolean)`. -/
def splitWords (text : String) : List String :=
  wordsAux text.toList []

/-- `words.join(' ')` from JS. -/
def joinWords (ws : List String) : String :=
  String.intercalate " " ws

/-- `words.slice(s, e).join(' ')` from JS. -/
def sliceJoin (words : List String) (s e : Nat) : String :=
  joinWords ((words.drop s).take (e - s))

/-- The `while` loop of `chunkText` in `server.js`, fuel-indexed:
`start < words.length` is the loop guard, the window end is
`Math.min(start + sizeWords, words.length)`, the pushed chunk is
`words.slice(start, end).join(' ')`, the loop breaks when the end reaches the
word count and otherwise continues from `end - overlapWords`.  `none` means
the fuel ran out before the loop finished; the termination theorem shows
fuel `words.length + 1` always suffices when `overlapWords < sizeWords`. -/
def chunkLoop (words : List String) (sizeWords overlapWords : Nat) :
    Nat → Nat → Option (List String)
  | _start, 0 => none
  | start, fuel + 1 =>
    if start < words.length then
      if min (start + sizeWords) words.length = words.length then
        some [sliceJoin words start (min (start + sizeWords) words.length)]
      else
        match chunkLoop words sizeWords overlapWords
            (min (start + sizeWords) words.length - overlapWords) fuel with
        | some rest =>
          some (sliceJoin words start (min (start + sizeWords) words.length) :: rest)
        | none => none
    else some []

/-- The index view of the same loop: the `(start, end)` ranges of the
windows `chunkLoop` slices out of a word list of length `n`.  On the branch
that continues, `min (start + size) n = start + size` because the
`end = n` test failed, so the window is written `(start, start + size)`. -/
def chunkRanges (n size overlap : Nat) : Nat → Nat → Option (List (Nat × Nat))
  | _start, 0 => none
  | start, fuel + 1 =>
    if start < n then
      if n ≤ start + size then some [(start, n)]
      else
        match chunkRanges n size overlap (start + size - overlap) fuel with
        | some rest => some ((start, start + size) :: rest)
        | none => none
    else some []

/-- `chunkText` from `server.js`: resolve the profile, split into words,
return `[]` on no words, a single joined chunk when the text fits in one
window, and otherwise run the sliding-window loop (with fuel
`words.length + 1`, proved sufficient by the termination theorem). -/
def chunkText (text : String) (profile : String := "default") : List String :=
  let cfg := getChunkConfig profile
  let words := splitWords text
  if words.length = 0 then []
  else if words.length ≤ cfg.sizeWords then [joinWords words]
  else (chunkLoop words cfg.sizeWords cfg.overlapWords 0 (words.length + 1)).getD []

/-- The properties claimed of the window ranges when the text is longer than
one window: the first window starts at 0 (and ends at `size`), every window
ends at `min (start + size) n`, each subsequent window starts at the
previous end minus the overlap, the last window ends at the total word
count, and every earlier window ends strictly before it. -/
def windowSpec (n size overlap : Nat) (R : List (Nat × Nat)) : Prop :=
  R.head? = some (0, size) ∧
  (∀ r ∈ R, r.2 = min (r.1 + size) n) ∧
  List.Chain' (fun a b => b.1 = a.2 - overlap) R ∧
  (∃ s, R.getLast? = some (s, n)) ∧
  (∀ r ∈ R.dropLast, r.2 < n)

/-- Coverage and exact-overlap properties of the window ranges: every word
index below `n` lies in some window, and each pair of consecutive windows
shares exactly `overlap` indices (the later window starts `overlap` before
the earlier one ends, and ends strictly after it). -/
def coverSpec (n overlap : Nat) (R : List (Nat × Nat)) : Prop :=
  (∀ j, j < n → ∃ r ∈ R, r.1 ≤ j ∧ j < r.2) ∧
  List.Chain' (fun a b => b.1 + overlap = a.2 ∧ a.2 < b.2) R

/-- The whitespace-normalized text the spec describes: split on whitespace
runs, drop empty tokens, rejoin with single spaces. -/
def normalizeText (text : String) : String :=
  joinWords (splitWords text)

/-- A JSON scalar as the handlers read it from `req.body`; `vundefined`
models an absent field.  Numbers are modelled as integers, which is enough
for the truthiness distinctions the handlers make. -/
inductive JSVal where
  | vstr (s : String)
  | vnum (n : Int)
  | vbool (b : Bool)
  | vnull
  | vundefined
deriving DecidableEq

/-- JavaScript truthiness for the modelled values: `""`, `0`, `false`,
`null` and `undefined` are falsy, everything else truthy. -/
def JSVal.truthy : JSVal → Bool
  | .vstr s => s != ""
  | .vnum n => n != 0
  | .vbool b => b
  | .vnull => false
  | .vundefined => false

/-- The body of a `/log_completion_result` request (`server.js`). -/
structure LogReq where
  course : JSVal
  assignment_type : JSVal
  subtopic : JSVal
  original_prompt : JSVal
  model_answer : JSVal
  outcome : JSVal
  score : JSVal
  teacher_feedback : JSVal
deriving DecidableEq

/-- The row `/log_completion_result` inserts into `kb_chunks`; the
embedding vector itself comes from the external provider, so the model
records the text the handler sends it (`embedInput`). -/
structure LogRow where
  course : JSVal
  type : String
  subtopic : JSVal
  assignment_type : JSVal
  original_prompt : JSVal
  model_answer : JSVal
  outcome : JSVal
  score : JSVal
  teacher_feedback : JSVal
  chunk_index : Nat
  content : JSVal
  embedInput : JSVal
deriving DecidableEq

/-- What `/log_completion_result` does with a request: reject it at
validation (400, before any external call), or embed and insert one row. -/
inductive LogResult where
  | missingFields
  | store (row : LogRow)
deriving DecidableEq

/-- The `/log_completion_result` handler from `server.js`: the guard is
`!course || !assignment_type || !model_answer || !outcome`, the stored type
is `outcome === 'success' ? 'completion_good' : 'completion_bad'`, and the
row carries the request fields plus `chunk_index: 0` and
`content: model_answer`. -/
def logCompletionResult (req : LogReq) : LogResult :=
  if !req.course.truthy || !req.assignment_type.truthy
      || !req.model_answer.truthy || !req.outcome.truthy then
    .missingFields
  else
    .store
      { course := req.course
        type := if req.outcome = .vstr "success" then "completion_good" else "completion_bad"
        subtopic := req.subtopic
        assignment_type := req.assignment_type
        original_prompt := req.original_prompt
        model_answer := req.model_answer
        outcome := req.outcome
        score := req.score
        teacher_feedback := req.teacher_feedback
        chunk_index := 0
        content := req.model_answer
        embedInput := req.model_answer }

/-- The body of a `/search_content` request; `none` models an absent field
(the declared schema types these as strings, so `some ""` is the
empty-string case).  `top_k` and `threshold` carry destructuring defaults
`8` and `0.7` in the handler. -/
structure SearchReq where
  course : Option String
  query : String
  types : Option (List String)
  subtopic : Option String
  assignment_type : Option String
  top_k : Option Int
  threshold : Option Rat
deriving DecidableEq

/-- The argument object `/search_content` passes to the store's
`match_kb_chunks` similarity function; `none` is SQL `null`, the
unconstrained filter value. -/
structure RpcParams where
  match_course : Option String
  match_types : Option (List String)
  match_subtopic : Option String
  match_assignment_type : Option String
  match_limit : Int
  match_threshold : Rat
deriving DecidableEq

/-- What `/search_content` does with a request: reject a missing query
(400, before any external call) or call the store's similarity function
with these parameters. -/
inductive SearchOutcome where
  | missingQuery
  | rpc (p : RpcParams)
deriving DecidableEq

/-- `x || null` on an optional string field: the empty string is falsy, so
both an absent field and an empty one become `null`. -/
def orNull (o : Option String) : Option String :=
  match o with
  | some s => if s = "" then none else some s
  | none => none

/-- The `/search_content` handler from `server.js`: `!query` guards, then
`match_course: course || null`, `match_types: types?.length ? types : null`,
`match_subtopic: subtopic || null`,
`match_assignment_type: assignment_type || null`, `match_limit: top_k`,
`match_threshold: threshold`, with `top_k = 8` and `threshold = 0.7` when
the request leaves them undefined. -/
def searchContent (req : SearchReq) : SearchOutcome :=
  if req.query = "" then .missingQuery
  else
    .rpc
      { match_course := orNull req.course
        match_types :=
          match req.types with
          | some l => if l.length != 0 then some l else none
          | none => none
        match_subtopic := orNull req.subtopic
        match_assignment_type := orNull req.assignment_type
        match_limit := req.top_k.getD 8
        match_threshold := req.threshold.getD (7 / 10) }

/-- The pass-through properties claimed of a search: `top_k` and
`threshold` reach the store unchanged (with defaults `8` and `0.7` when
absent), and every absent optional filter is passed as `null`, the
unconstrained value. -/
def passthroughSpec (req : SearchReq) (p : RpcParams) : Prop :=
  p.match_limit = req.top_k.getD 8 ∧
  p.match_threshold = req.threshold.getD (7 / 10) ∧
  (∀ k, req.top_k = some k → p.match_limit = k) ∧
  (∀ t, req.threshold = some t → p.match_threshold = t) ∧
  (req.course = none → p.match_course = none) ∧
  (req.types = none → p.match_types = none) ∧
  (req.subtopic = none → p.match_subtopic = none) ∧
  (req.assignment_type = none → p.match_assignment_type = none)

/-- The body of an `/ingest_content` request.  The three required fields
are strings in the declared schema; `""` models both the absent and the
empty case, which the `!x` guard treats identically. -/
structure IngestReq where
  course : String
  type : String
  subtopic : Option String
  assignment_type : Option String
  chunk_profile : Option String
  raw_text : String
  source_name : Option String
deriving DecidableEq

/-- One row of the multi-row `kb_chunks` insert `/ingest_content` builds. -/
structure IngestRow where
  course : String
  type : String
  subtopic : Option String
  assignment_type : Option String
  source_name : Option String
  chunk_index : Nat
  content : String
deriving DecidableEq

/-- What `/ingest_content` does with a request, in order: reject missing
required fields (400), reject an empty chunk list (400 "No content
produced") — both before any embedding or store call — or embed the chunks
and insert the rows. -/
inductive IngestOutcome where
  | missingFields
  | noContent
  | store (rows : List IngestRow)
deriving DecidableEq

/-- The `/ingest_content` handler from `server.js`: the guard is
`!raw_text || !course || !type`, then `chunkText(raw_text, chunk_profile)`
with the profile defaulting to `'default'`, a 400 if no chunks were
produced, and otherwise one row per chunk with `chunk_index` equal to the
chunk's position. -/
def ingestContent (req : IngestReq) : IngestOutcome :=
  if req.raw_text = "" || req.course = "" || req.type = "" then .missingFields
  else
    let chunks := chunkText req.raw_text (req.chunk_profile.getD "default")
    if chunks.length = 0 then .noContent
    else
      .store (chunks.mapIdx fun i c =>
        { course := req.course
          type := req.type
          subtopic := req.subtopic
          assignment_type := req.assignment_type
          source_name := req.source_name
          chunk_index := i
          content := c })

/-- A `/log_completion_result` request whose `outcome` is the ambiguous
truthy string `"maybe"`. -/
def logReqAmbiguous : LogReq :=
  { course := .vstr "math"
    assignment_type := .vstr "essay"
    subtopic := .vnull
    original_prompt := .vstr "prompt"
    model_answer := .vstr "an answer"
    outcome := .vstr "maybe"
    score := .vnum 3
    teacher_feedback := .vnull }

/-- The same request with the falsy `outcome` value `false`. -/
def logReqFalsy : LogReq :=
  { logReqAmbiguous with outcome := .vbool false }

/-- The same request with `outcome = "success"`. -/
def logReqSuccess : LogReq :=
  { logReqAmbiguous with outcome := .vstr "success" }

/-- The row the handler stores for `logReqSuccess`. -/
def logRowSuccess : LogRow :=
  { course := .vstr "math"
    type := "completion_good"
    subtopic := .vnull
    assignment_type := .vstr "essay"
    original_prompt := .vstr "prompt"
    model_answer := .vstr "an answer"
    outcome := .vstr "success"
    score := .vnum 3
    teacher_feedback := .vnull
    chunk_index := 0
    content := .vstr "an answer"
    embedInput := .vstr "an answer" }

/-- An `/ingest_content` request whose `raw_text` is whitespace-only but
passes the required-field truthiness check. -/
def ingestReqBlank : IngestReq :=
  { course := "math"
    type := "resource"
    subtopic := none
    assignment_type := none
    chunk_profile := none
    raw_text := " "
    source_name := none }

/-- A fully populated `/search_content` request. -/
def searchReqFull : SearchReq :=
  { course := some "math"
    query := "what is a derivative"
    types := some ["resource"]
    subtopic := some "calculus"
    assignment_type := some "homework"
    top_k := some 5
    threshold := some (9 / 10) }

theorem chunkRanges_isSome (n size overlap : Nat) (hov : overlap < size) :
    ∀ fuel start, n - start < fuel → (chunkRanges n size overlap start fuel).isSome = true := by
  intro fuel
  induction fuel with
  | zero => intro start h; omega
  | succ f ih =>
    intro start h
    unfold chunkRanges
    by_cases hs : start < n
    · simp only [hs, if_true]
      by_cases he : n ≤ start + size
      · simp [he]
      · simp only [he, if_false]
        have hr := ih (start + size - overlap) (by omega)
        cases hc : chunkRanges n size overlap (start + size - overlap) f with
        | none => rw [hc] at hr; simp at hr
        | some rest => simp [hc]
    · simp [hs]

theorem chunkRanges_head (n size overlap start fuel : Nat) (hs : start < n)
    (R : List (Nat × Nat)) (h : chunkRanges n size overlap start fuel = some R) :
    ∃ rest, R = (start, min (start + size) n) :: rest := by
  cases fuel with
  | zero => simp [chunkRanges] at h
  | succ f =>
    unfold chunkRanges at h
    simp only [hs, if_true] at h
    by_cases he : n ≤ start + size
    · simp only [he, if_true, Option.some.injEq] at h
      exact ⟨[], by rw [← h, min_eq_right he]⟩
    · simp only [he, if_false] at h
      cases hc : chunkRanges n size overlap (start + size - overlap) f with
      | none => rw [hc] at h; simp at h
      | some rest =>
        rw [hc] at h
        simp only [Option.some.injEq] at h
        refine ⟨rest, ?_⟩
        rw [← h, min_eq_left (by omega)]

theorem chunkRanges_ends (n size overlap : Nat) :
    ∀ fuel start R, chunkRanges n size overlap start fuel = some R →
      ∀ r ∈ R, r.2 = min (r.1 + size) n := by
  intro fuel
  induction fuel with
  | zero => intro start R h; simp [chunkRanges] at h
  | succ f ih =>
    intro start R h
    unfold chunkRanges at h
    by_cases hs : start < n
    · simp only [hs, if_true] at h
      by_cases he : n ≤ start + size
      · simp only [he, if_true, Option.some.injEq] at h
        subst h
        intro r hr
        simp at hr
        subst hr
        simp [min_eq_right he]
      · simp only [he, if_false] at h
        cases hc : chunkRanges n size overlap (start + size - overlap) f with
        | none => rw [hc] at h; simp at h
        | some rest =>
          rw [hc] at h
          simp only [Option.some.injEq] at h
          subst h
          intro r hr
          rcases List.mem_cons.mp hr with h1 | h2
          · subst h1; simp [min_eq_left (le_of_lt (by omega : start + size < n))]
          · exact ih _ rest hc r h2
    · simp only [hs, if_false, Option.some.injEq] at h
      subst h
      intro r hr
      simp at hr

theorem chunkRanges_chain (n size overlap : Nat) :
    ∀ fuel start R, chunkRanges n size overlap start fuel = some R →
      List.Chain' (fun a b => b.1 = a.2 - overlap) R := by
  intro fuel
  induction fuel with
  | zero => intro start R h; simp [chunkRanges] at h
  | succ f ih =>
    intro start R h
    unfold chunkRanges at h
    by_cases hs : start < n
    · simp only [hs, if_true] at h
      by_cases he : n ≤ start + size
      · simp only [he, if_true, Option.some.injEq] at h
        subst h; simp
      · simp only [he, if_false] at h
        cases hc : chunkRanges n size overlap (start + size - overlap) f with
        | none => rw [hc] at h; simp at h
        | some rest =>
          rw [hc] at h
          simp only [Option.some.injEq] at h
          subst h
          rw [List.chain'_cons']
          refine ⟨?_, ih _ rest hc⟩
          intro b hb
          have hlt : start + size - overlap < n := by omega
          obtain ⟨rest', hrest'⟩ := chunkRanges_head n size overlap _ f hlt rest hc
          subst hrest'
          simp at hb
          subst hb
          simp
    · simp only [hs, if_false, Option.some.injEq] at h
      subst h; simp

theorem chunkRanges_chain2 (n size overlap : Nat) (hov : overlap < size) :
    ∀ fuel start R, chunkRanges n size overlap start fuel = some R →
      List.Chain' (fun a b => b.1 + overlap = a.2 ∧ a.2 < b.2) R := by
  intro fuel
  induction fuel with
  | zero => intro start R h; simp [chunkRanges] at h
  | succ f ih =>
    intro start R h
    unfold chunkRanges at h
    by_cases hs : start < n
    · simp only [hs, if_true] at h
      by_cases he : n ≤ start + size
      · simp only [he, if_true, Option.some.injEq] at h
        subst h; simp
      · simp only [he, if_false] at h
        cases hc : chunkRanges n size overlap (start + size - overlap) f with
        | none => rw [hc] at h; simp at h
        | some rest =>
          rw [hc] at h
          simp only [Option.some.injEq] at h
          subst h
          rw [List.chain'_cons']
          refine ⟨?_, ih _ rest hc⟩
          intro b hb
          have hlt : start + size - overlap < n := by omega
          obtain ⟨rest', hrest'⟩ := chunkRanges_head n size overlap _ f hlt rest hc
          subst hrest'
          simp at hb
          subst hb
          constructor
          · simp; omega
          · simp; omega
    · simp only [hs, if_false, Option.some.injEq] at h
      subst h; simp

theorem chunkRanges_last (n size overlap : Nat) :
    ∀ fuel start R, start < n → chunkRanges n size overlap start fuel = some R →
      ∃ s, R.getLast? = some (s, n) := by
  intro fuel
  induction fuel with
  | zero => intro start R _ h; simp [chunkRanges] at h
  | succ f ih =>
    intro start R hs h
    unfold chunkRanges at h
    simp only [hs, if_true] at h
    by_cases he : n ≤ start + size
    · simp only [he, if_true, Option.some.injEq] at h
      subst h
      exact ⟨start, rfl⟩
    · simp only [he, if_false] at h
      cases hc : chunkRanges n size overlap (start + size - overlap) f with
      | none => rw [hc] at h; simp at h
      | some rest =>
        rw [hc] at h
        simp only [Option.some.injEq] at h
        subst h
        have hlt : start + size - overlap < n := by omega
        obtain ⟨s, hlast⟩ := ih _ rest hlt hc
        obtain ⟨rest', hrest'⟩ := chunkRanges_head n size overlap _ f hlt rest hc
        subst hrest'
        exact ⟨s, by rw [List.getLast?_cons_cons]; exact hlast⟩

theorem chunkRanges_dropLast (n size overlap : Nat) :
    ∀ fuel start R, chunkRanges n size overlap start fuel = some R →
      ∀ r ∈ R.dropLast, r.2 < n := by
  intro fuel
  induction fuel with
  | zero => intro start R h; simp [chunkRanges] at h
  | succ f ih =>
    intro start R h
    unfold chunkRanges at h
    by_cases hs : start < n
    · simp only [hs, if_true] at h
      by_cases he : n ≤ start + size
      · simp only [he, if_true, Option.some.injEq] at h
        subst h
        intro r hr
        simp at hr
      · simp only [he, if_false] at h
        cases hc : chunkRanges n size overlap (start + size - overlap) f with
        | none => rw [hc] at h; simp at h
        | some rest =>
          rw [hc] at h
          simp only [Option.some.injEq] at h
          subst h
          have hlt : start + size - overlap < n := by omega
          obtain ⟨rest', hrest'⟩ := chunkRanges_head n size overlap _ f hlt rest hc
          subst hrest'
          intro r hr
          rw [List.dropLast_cons₂] at hr
          rcases List.mem_cons.mp hr with h1 | h2
          · subst h1; simpa using (by omega : start + size < n)
          · exact ih _ _ hc r h2
    · simp only [hs, if_false, Option.some.injEq] at h
      subst h
      intro r hr
      simp at hr

theorem chunkRanges_cover (n size overlap : Nat) :
    ∀ fuel start R, chunkRanges n size overlap start fuel = some R →
      ∀ j, start ≤ j → j < n → ∃ r ∈ R, r.1 ≤ j ∧ j < r.2 := by
  intro fuel
  induction fuel with
  | zero => intro start R h; simp [chunkRanges] at h
  | succ f ih =>
    intro start R h
    unfold chunkRanges at h
    by_cases hs : start < n
    · simp only [hs, if_true] at h
      by_cases he : n ≤ start + size
      · simp only [he, if_true, Option.some.injEq] at h
        subst h
        intro j hj1 hj2
        exact ⟨(start, n), by simp, hj1, hj2⟩
      · simp only [he, if_false] at h
        cases hc : chunkRanges n size overlap (start + size - overlap) f with
        | none => rw [hc] at h; simp at h
        | some rest =>
          rw [hc] at h
          simp only [Option.some.injEq] at h
          subst h
          intro j hj1 hj2
          by_cases hj3 : j < start + size
          · exact ⟨(start, start + size), by simp, hj1, hj3⟩
          · obtain ⟨r, hr, hr1, hr2⟩ := ih _ rest hc j (by omega) hj2
            exact ⟨r, List.mem_cons_of_mem _ hr, hr1, hr2⟩
    · simp only [hs, if_false, Option.some.injEq] at h
      subst h
      intro j hj1 hj2
      omega

theorem chunkLoop_eq_ranges (words : List String) (size overlap : Nat) :
    ∀ fuel start,
      chunkLoop words size overlap start fuel =
        (chunkRanges words.length size overlap start fuel).map
          (List.map fun r => sliceJoin words r.1 r.2) := by
  intro fuel
  induction fuel with
  | zero => intro start; rfl
  | succ f ih =>
    intro start
    unfold chunkLoop chunkRanges
    by_cases hs : start < words.length
    · simp only [hs, if_true]
      by_cases he : words.length ≤ start + size
      · have hmin : min (start + size) words.length = words.length := min_eq_right he
        simp [hmin, he]
      · have hlt : start + size < words.length := by omega
        have hmin : min (start + size) words.length = start + size := min_eq_left (le_of_lt hlt)
        have hne : ¬ (min (start + size) words.length = words.length) := by omega
        simp only [hne, if_false, he, if_false, hmin]
        rw [ih (start + size - overlap)]
        cases hc : chunkRanges words.length size overlap (start + size - overlap) f with
        | none =>
          simp only [Option.map_none']
          simp
          omega
        | some rest =>
          simp only [Option.map_some']
          simp
          intro h
          exact absurd h (by omega)
    · simp [hs]

theorem chunkLoop_isSome (words : List String) (size overlap : Nat) (hov : overlap < size)
    (start fuel : Nat) (h : words.length - start < fuel) :
    (chunkLoop words size overlap start fuel).isSome = true := by
  rw [chunkLoop_eq_ranges]
  have hiso := chunkRanges_isSome words.length size overlap hov fuel start h
  cases hc : chunkRanges words.length size overlap start fuel with
  | none => rw [hc] at hiso; simp at hiso
  | some R => simp [hc]

theorem getConfig_cases (s : String) :
    getChunkConfig s = ⟨400, 60⟩ ∨ getChunkConfig s = ⟨1400, 180⟩ ∨
      getChunkConfig s = ⟨900, 120⟩ := by
  unfold getChunkConfig
  split <;> simp

theorem getConfig_other (s : String) (h1 : s ≠ "short_form") (h2 : s ≠ "long_book") :
    getChunkConfig s = ⟨900, 120⟩ := by
  unfold getChunkConfig
  split <;> simp_all

theorem getConfig_overlap_lt (s : String) :
    (getChunkConfig s).overlapWords < (getChunkConfig s).sizeWords := by
  rcases getConfig_cases s with h | h | h <;> rw [h] <;> decide

theorem chunkText_eq_ranges (text profile : String)
    (h : (getChunkConfig profile).sizeWords < (splitWords text).length) :
    chunkText text profile =
      ((chunkRanges (splitWords text).length (getChunkConfig profile).sizeWords
          (getChunkConfig profile).overlapWords 0 ((splitWords text).length + 1)).getD []).map
        (fun r => sliceJoin (splitWords text) r.1 r.2) := by
  unfold chunkText
  have h0 : ¬ ((splitWords text).length = 0) := by omega
  have h1 : ¬ ((splitWords text).length ≤ (getChunkConfig profile).sizeWords) := by omega
  simp only [h0, if_false, h1, if_false]
  rw [chunkLoop_eq_ranges]
  cases hc : chunkRanges (splitWords text).length (getChunkConfig profile).sizeWords
      (getChunkConfig profile).overlapWords 0 ((splitWords text).length + 1) with
  | none => rfl
  | some R => rfl

theorem wordsAux_whitespace :
    ∀ (l acc : List Char), (∀ c ∈ l, c.isWhitespace = true) →
      wordsAux l acc = if acc.isEmpty then [] else [String.mk acc.reverse] := by
  intro l
  induction l with
  | nil => intro acc _; rfl
  | cons c cs ih =>
    intro acc h
    have hc : c.isWhitespace = true := h c (by simp)
    have hcs : ∀ x ∈ cs, x.isWhitespace = true := fun x hx => h x (by simp [hx])
    unfold wordsAux
    simp only [hc, if_true]
    rw [ih [] hcs]
    by_cases ha : acc.isEmpty <;> simp [ha]

theorem splitWords_whitespace (text : String)
    (h : ∀ c ∈ text.toList, c.isWhitespace = true) : splitWords text = [] := by
  unfold splitWords
  rw [wordsAux_whitespace _ _ h]
  rfl

theorem chunkText_whitespace (text : String)
    (h : ∀ c ∈ text.toList, c.isWhitespace = true) (profile : String) :
    chunkText text profile = [] := by
  unfold chunkText
  simp [splitWords_whitespace text h]

/-- C1: for any text longer than one window the chunker's windows start at 0,
each subsequent window starts at the previous end minus `overlapWords`, each
window ends at `min (start + sizeWords, total)`, chunking stops at the window
whose end is the total word count, and a 1000-word text under
`{size:400, overlap:60}` yields exactly the windows
`[0,400)`, `[340,740)`, `[680,1000)`. -/
theorem C1_chunk_windows :
    (∀ n size overlap : Nat, overlap < size → size < n →
      ∃ R, chunkRanges n size overlap 0 (n + 1) = some R ∧ windowSpec n size overlap R) ∧
    (∀ text profile : String,
      (getChunkConfig profile).sizeWords < (splitWords text).length →
      chunkText text profile =
        ((chunkRanges (splitWords text).length (getChunkConfig profile).sizeWords
            (getChunkConfig profile).overlapWords 0 ((splitWords text).length + 1)).getD []).map
          (fun r => sliceJoin (splitWords text) r.1 r.2)) ∧
    chunkRanges 1000 400 60 0 1001 = some [(0, 400), (340, 740), (680, 1000)] ∧
    getChunkConfig "short_form" = { sizeWords := 400, overlapWords := 60 } := by
  refine ⟨?_, chunkText_eq_ranges, by decide, rfl⟩
  intro n size overlap hov hsz
  have hn : 0 < n := by omega
  have hiso := chunkRanges_isSome n size overlap hov (n + 1) 0 (by omega)
  cases hc : chunkRanges n size overlap 0 (n + 1) with
  | none => rw [hc] at hiso; simp at hiso
  | some R =>
    refine ⟨R, rfl, ?_, chunkRanges_ends n size overlap _ _ _ hc,
      chunkRanges_chain n size overlap _ _ _ hc,
      chunkRanges_last n size overlap _ _ _ hn hc,
      chunkRanges_dropLast n size overlap _ _ _ hc⟩
    obtain ⟨rest, hrest⟩ := chunkRanges_head n size overlap 0 (n + 1) hn R hc
    subst hrest
    simp [min_eq_left (le_of_lt hsz)]

theorem C1_chunk_windows_witness :
    1 < 2 ∧ 2 < 3 ∧
      ∃ R, chunkRanges 3 2 1 0 4 = some R ∧ windowSpec 3 2 1 R :=
  ⟨by decide, by decide, C1_chunk_windows.1 3 2 1 (by decide) (by decide)⟩

/-- C2: for any text longer than one window the produced windows jointly
cover every word index, and each pair of consecutive windows (the final pair
included) overlaps by exactly `overlapWords` words. -/
theorem C2_coverage_overlap :
    (∀ n size overlap : Nat, overlap < size → size < n →
      ∃ R, chunkRanges n size overlap 0 (n + 1) = some R ∧ coverSpec n overlap R) ∧
    (∀ text profile : String,
      (getChunkConfig profile).sizeWords < (splitWords text).length →
      chunkText text profile =
        ((chunkRanges (splitWords text).length (getChunkConfig profile).sizeWords
            (getChunkConfig profile).overlapWords 0 ((splitWords text).length + 1)).getD []).map
          (fun r => sliceJoin (splitWords text) r.1 r.2)) := by
  refine ⟨?_, chunkText_eq_ranges⟩
  intro n size overlap hov hsz
  have hiso := chunkRanges_isSome n size overlap hov (n + 1) 0 (by omega)
  cases hc : chunkRanges n size overlap 0 (n + 1) with
  | none => rw [hc] at hiso; simp at hiso
  | some R =>
    exact ⟨R, rfl,
      fun j hj => chunkRanges_cover n size overlap _ _ _ hc j (Nat.zero_le j) hj,
      chunkRanges_chain2 n size overlap hov _ _ _ hc⟩

theorem C2_coverage_overlap_witness :
    1 < 2 ∧ 2 < 5 ∧
      ∃ R, chunkRanges 5 2 1 0 6 = some R ∧ coverSpec 5 1 R :=
  ⟨by decide, by decide, C2_coverage_overlap.1 5 2 1 (by decide) (by decide)⟩

/-- C3: a text with a positive word count at most `sizeWords` chunks to a
single chunk equal to the whitespace-normalized text. -/
theorem C3_single_chunk (text profile : String)
    (hpos : 0 < (splitWords text).length)
    (hle : (splitWords text).length ≤ (getChunkConfig profile).sizeWords) :
    chunkText text profile = [normalizeText text] := by
  unfold chunkText normalizeText
  have h0 : ¬ ((splitWords text).length = 0) := by omega
  simp only [h0, if_false, hle, if_true]

theorem C3_single_chunk_witness :
    0 < (splitWords "a  b").length ∧
      (splitWords "a  b").length ≤ (getChunkConfig "default").sizeWords ∧
      chunkText "a  b" "default" = [normalizeText "a  b"] :=
  ⟨by decide, by decide, C3_single_chunk "a  b" "default" (by decide) (by decide)⟩

/-- C7: the chunking loop terminates whenever `overlapWords < sizeWords`
(fuel `words.length + 1` is never exhausted), because an iteration that
continues moves the window start to exactly `start + (sizeWords -
overlapWords)`, strictly past the old start; every profile `getChunkConfig`
can return satisfies `overlapWords < sizeWords`, so the loop inside
`chunkText` always completes. -/
theorem C7_termination :
    (∀ size overlap : Nat, overlap < size →
      ∀ (words : List String) (start fuel : Nat), words.length - start < fuel →
        (chunkLoop words size overlap start fuel).isSome = true) ∧
    (∀ size overlap n start : Nat, overlap < size → start < n →
      min (start + size) n < n →
      min (start + size) n - overlap = start + (size - overlap) ∧
      start < min (start + size) n - overlap) ∧
    (∀ profile : String,
      (getChunkConfig profile).overlapWords < (getChunkConfig profile).sizeWords) ∧
    (∀ text profile : String,
      (chunkLoop (splitWords text) (getChunkConfig profile).sizeWords
        (getChunkConfig profile).overlapWords 0 ((splitWords text).length + 1)).isSome = true) := by
  refine ⟨fun size overlap hov words start fuel h => chunkLoop_isSome words size overlap hov start fuel h,
    ?_, getConfig_overlap_lt, ?_⟩
  · intro size overlap n start hov hs hmin
    omega
  · intro text profile
    exact chunkLoop_isSome (splitWords text) (getChunkConfig profile).sizeWords
      (getChunkConfig profile).overlapWords (getConfig_overlap_lt profile) 0
      ((splitWords text).length + 1) (by omega)

theorem C7_termination_witness :
    (chunkLoop ["a", "b", "c"] 2 1 0 4).isSome = true ∧
      (min (0 + 2) 3 - 1 = 0 + (2 - 1) ∧ 0 < min (0 + 2) 3 - 1) :=
  ⟨C7_termination.1 2 1 (by decide) ["a", "b", "c"] 0 4 (by decide),
   C7_termination.2.1 2 1 3 0 (by decide) (by decide) (by decide)⟩

/-- C8: `getChunkConfig` is total, maps `"short_form"` to `{400, 60}`,
`"long_book"` to `{1400, 180}`, every other name to the default
`{900, 120}`, and every profile it returns satisfies
`overlapWords < sizeWords`. -/
theorem C8_profile_resolution :
    getChunkConfig "short_form" = { sizeWords := 400, overlapWords := 60 } ∧
    getChunkConfig "long_book" = { sizeWords := 1400, overlapWords := 180 } ∧
    getChunkConfig "default" = { sizeWords := 900, overlapWords := 120 } ∧
    (∀ s : String, s ≠ "short_form" → s ≠ "long_book" →
      getChunkConfig s = { sizeWords := 900, overlapWords := 120 }) ∧
    (∀ s : String, (getChunkConfig s).overlapWords < (getChunkConfig s).sizeWords) :=
  ⟨rfl, rfl, rfl, getConfig_other, getConfig_overlap_lt⟩

theorem C8_profile_resolution_witness :
    getChunkConfig "mystery" = { sizeWords := 900, overlapWords := 120 } :=
  C8_profile_resolution.2.2.2.1 "mystery" (by decide) (by decide)

theorem logCompletionResult_missing (req : LogReq) (h : req.outcome.truthy = false) :
    logCompletionResult req = .missingFields := by
  unfold logCompletionResult
  simp [h]

theorem logCompletionResult_store (req : LogReq)
    (h1 : req.course.truthy = true) (h2 : req.assignment_type.truthy = true)
    (h3 : req.model_answer.truthy = true) (h4 : req.outcome.truthy = true) :
    logCompletionResult req = .store
      { course := req.course
        type := if req.outcome = .vstr "success" then "completion_good" else "completion_bad"
        subtopic := req.subtopic
        assignment_type := req.assignment_type
        original_prompt := req.original_prompt
        model_answer := req.model_answer
        outcome := req.outcome
        score := req.score
        teacher_feedback := req.teacher_feedback
        chunk_index := 0
        content := req.model_answer
        embedInput := req.model_answer } := by
  unfold logCompletionResult
  simp [h1, h2, h3, h4]

theorem logCompletionResult_store_inv (req : LogReq) (row : LogRow)
    (h : logCompletionResult req = .store row) :
    row.type = (if req.outcome = .vstr "success" then "completion_good" else "completion_bad") ∧
    row.content = req.model_answer ∧
    row.chunk_index = 0 ∧
    row.course = req.course ∧
    row.subtopic = req.subtopic ∧
    row.assignment_type = req.assignment_type ∧
    row.original_prompt = req.original_prompt ∧
    row.model_answer = req.model_answer ∧
    row.outcome = req.outcome ∧
    row.score = req.score ∧
    row.teacher_feedback = req.teacher_feedback := by
  unfold logCompletionResult at h
  split at h
  · simp at h
  · rw [LogResult.store.injEq] at h
    subst h
    exact ⟨rfl, rfl, rfl, rfl, rfl, rfl, rfl, rfl, rfl, rfl, rfl⟩

/-- C4 counterexample: the falsy outcome `false` is rejected at validation
(so it does not yield a stored `completion_bad` record), and the ambiguous
truthy outcome `"maybe"` passes validation and is stored as
`completion_bad` instead of failing validation — both against the claim as
stated. -/
theorem C4_outcome_counterexample :
    logCompletionResult logReqFalsy = .missingFields ∧
    logCompletionResult logReqAmbiguous ≠ .missingFields ∧
    (∃ row, logCompletionResult logReqAmbiguous = .store row ∧
      row.type = "completion_bad") := by
  refine ⟨by decide, by decide, ⟨_, rfl, by decide⟩⟩

/-- C4 (amended): a stored record's type is `completion_good` exactly when
`outcome` is the string `"success"`; a falsy or missing outcome fails
validation and stores nothing; and any truthy outcome other than
`"success"` — failure-signaling or ambiguous — passes validation (given the
other required fields) and is stored with type `completion_bad` rather than
failing validation. -/
theorem C4_outcome_encoding (req : LogReq) :
    (req.outcome.truthy = false → logCompletionResult req = .missingFields) ∧
    (∀ row, logCompletionResult req = .store row →
      (row.type = "completion_good" ↔ req.outcome = .vstr "success")) ∧
    (∀ row, logCompletionResult req = .store row → req.outcome ≠ .vstr "success" →
      row.type = "completion_bad") ∧
    (req.course.truthy = true → req.assignment_type.truthy = true →
      req.model_answer.truthy = true → req.outcome.truthy = true →
      ∃ row, logCompletionResult req = .store row) := by
  refine ⟨logCompletionResult_missing req, ?_, ?_, ?_⟩
  · intro row h
    have ht := (logCompletionResult_store_inv req row h).1
    rw [ht]
    by_cases ho : req.outcome = .vstr "success" <;> simp [ho]
  · intro row h ho
    have ht := (logCompletionResult_store_inv req row h).1
    rw [ht]
    simp [ho]
  · intro h1 h2 h3 h4
    exact ⟨_, logCompletionResult_store req h1 h2 h3 h4⟩

theorem C4_outcome_encoding_witness :
    logCompletionResult logReqFalsy = LogResult.missingFields ∧
      ∃ row, logCompletionResult logReqSuccess = LogResult.store row :=
  ⟨(C4_outcome_encoding logReqFalsy).1 (by decide),
   (C4_outcome_encoding logReqSuccess).2.2.2 (by decide) (by decide) (by decide) (by decide)⟩

/-- C5: every `/search_content` request with a query passes `top_k` and
`threshold` through to the store unchanged (defaulting to `8` and `0.7`
when absent), and passes every absent optional filter as `null`, the
unconstrained value. -/
theorem C5_search_passthrough (req : SearchReq) (hq : req.query ≠ "") :
    ∃ p, searchContent req = .rpc p ∧ passthroughSpec req p := by
  have h : searchContent req = .rpc
      { match_course := orNull req.course
        match_types :=
          match req.types with
          | some l => if l.length != 0 then some l else none
          | none => none
        match_subtopic := orNull req.subtopic
        match_assignment_type := orNull req.assignment_type
        match_limit := req.top_k.getD 8
        match_threshold := req.threshold.getD (7 / 10) } := by
    unfold searchContent
    rw [if_neg hq]
  refine ⟨_, h, rfl, rfl, ?_, ?_, ?_, ?_, ?_, ?_⟩
  · intro k hk; simp [hk]
  · intro t ht; simp [ht]
  · intro hc; simp [orNull, hc]
  · intro ht; simp [ht]
  · intro hs; simp [orNull, hs]
  · intro ha; simp [orNull, ha]

theorem C5_search_passthrough_witness :
    searchReqFull.query ≠ "" ∧
      ∃ p, searchContent searchReqFull = SearchOutcome.rpc p ∧
        passthroughSpec searchReqFull p :=
  ⟨by decide, C5_search_passthrough searchReqFull (by decide)⟩

/-- C9: a `types` filter given as the empty array is normalized to `null`
before reaching the store, and empty-string values of `course`, `subtopic`
and `assignment_type` are likewise normalized to `null`, so these
degenerate filter values behave exactly like omitting the filter. -/
theorem C9_degenerate_filters (req : SearchReq) :
    searchContent { req with types := some [] } =
      searchContent { req with types := none } ∧
    searchContent { req with course := some "" } =
      searchContent { req with course := none } ∧
    searchContent { req with subtopic := some "" } =
      searchContent { req with subtopic := none } ∧
    searchContent { req with assignment_type := some "" } =
      searchContent { req with assignment_type := none } := by
  by_cases hq : req.query = "" <;> simp [searchContent, hq, orNull]

/-- C6: `chunkText` on empty or whitespace-only input returns zero chunks;
an `/ingest_content` request that passes the required-field check but
produces zero chunks is rejected as `noContent` — by construction of
`IngestOutcome`, before any embedding or store call — and a store call
never receives an empty row list. -/
theorem C6_empty_input :
    (∀ text : String, (∀ c ∈ text.toList, c.isWhitespace = true) →
      ∀ profile : String, chunkText text profile = []) ∧
    (∀ req : IngestReq, req.raw_text ≠ "" → req.course ≠ "" → req.type ≠ "" →
      chunkText req.raw_text (req.chunk_profile.getD "default") = [] →
      ingestContent req = .noContent) ∧
    (∀ req rows, ingestContent req = .store rows → rows ≠ []) := by
  refine ⟨chunkText_whitespace, ?_, ?_⟩
  · intro req h1 h2 h3 hchunks
    unfold ingestContent
    simp [h1, h2, h3, hchunks]
  · intro req rows h
    unfold ingestContent at h
    split at h
    · simp at h
    · simp only at h
      split at h
      · simp at h
      · rename_i hne
        rw [IngestOutcome.store.injEq] at h
        subst h
        apply List.ne_nil_of_length_pos
        rw [List.length_mapIdx]
        omega

theorem C6_empty_input_witness :
    chunkText " " "default" = [] ∧
      ingestContent ingestReqBlank = IngestOutcome.noContent :=
  ⟨C6_empty_input.1 " " (by decide) "default",
   C6_empty_input.2.1 ingestReqBlank (by decide) (by decide) (by decide) (by decide)⟩

/-- C10: the row `/log_completion_result` stores holds the `model_answer`
string verbatim as its `content` (the raw-answer encoding, not a structured
bundle), has `chunk_index = 0`, and additionally carries `original_prompt`,
`model_answer`, `outcome`, `score` and `teacher_feedback` as separate
fields. -/
theorem C10_log_row_shape (req : LogReq) (row : LogRow)
    (h : logCompletionResult req = .store row) :
    row.content = req.model_answer ∧
    row.chunk_index = 0 ∧
    row.original_prompt = req.original_prompt ∧
    row.model_answer = req.model_answer ∧
    row.outcome = req.outcome ∧
    row.score = req.score ∧
    row.teacher_feedback = req.teacher_feedback := by
  obtain ⟨-, h2, h3, -, -, -, h4, h5, h6, h7, h8⟩ :=
    logCompletionResult_store_inv req row h
  exact ⟨h2, h3, h4, h5, h6, h7, h8⟩

theorem C10_log_row_shape_witness :
    logCompletionResult logReqSuccess = LogResult.store logRowSuccess ∧
      (logRowSuccess.content = logReqSuccess.model_answer ∧
        logRowSuccess.chunk_index = 0 ∧
        logRowSuccess.original_prompt = logReqSuccess.original_prompt ∧
        logRowSuccess.model_answer = logReqSuccess.model_answer ∧
        logRowSuccess.outcome = logReqSuccess.outcome ∧
        logRowSuccess.score = logReqSuccess.score ∧
        logRowSuccess.teacher_feedback = logReqSuccess.teacher_feedback) :=
  ⟨by decide, C10_log_row_shape logReqSuccess logRowSuccess (by decide)⟩
